import Mathlib

/-
Shallow embedding of the command-line shell from the repository
(src/scanner.rs, src/parser.rs, src/main.rs), together with theorems
settling the frozen claims about its specification.

The scanner is embedded as functions over `List Char`: the Rust
`Scanner { chars, current, next }` with its two-slot lookahead window is
represented by the list of characters not yet consumed (`current` is the
head, `next` the second element, `advance` is `tail`).
-/

namespace Shell

/-- Determines if the given character is a digit (scanner.rs `is_digit`). -/
def is_digit (c : Char) : Bool := c.isDigit

/-- Determines if the given character is whitespace (scanner.rs `is_whitespace`). -/
def is_whitespace (c : Char) : Bool := c = ' ' || c = '\t' || c = '\r' || c = '\n'

/-- A token type (scanner.rs `TokenTag`). Rust `u32` payloads are Nat values
below 2^32; the bound is enforced at the only construction site, `parse_u32`. -/
inductive TokenTag where
  | endOfCommand
  | integer (i : Nat)
  | pipe
  | redirectOut
  | redirectOutAppend
  | redirectOutWithFileDescriptor (i : Nat)
  | redirectOutAppendWithFileDescriptor (i : Nat)
  | word
  deriving DecidableEq

/-- Rust `#[derive(Debug)]` formatting of `TokenTag`, as used in parser
error messages via `{:?}`. -/
def tagDebug : TokenTag → String
  | .endOfCommand => "EndOfCommand"
  | .integer i => "Integer(" ++ toString i ++ ")"
  | .pipe => "Pipe"
  | .redirectOut => "RedirectOut"
  | .redirectOutAppend => "RedirectOutAppend"
  | .redirectOutWithFileDescriptor i => "RedirectOutWithFileDescriptor(" ++ toString i ++ ")"
  | .redirectOutAppendWithFileDescriptor i => "RedirectOutAppendWithFileDescriptor(" ++ toString i ++ ")"
  | .word => "Word"

/-- A token in a command text (scanner.rs `Token`). -/
structure Token where
  tag : TokenTag
  lexeme : String
  deriving DecidableEq

/-- Possible states when scanning a word token (scanner.rs `WordState`). -/
inductive WordState where
  | normal
  | inSingleQuote
  | inDoubleQuote
  | backSpace
  | quotedBackSpace
  deriving DecidableEq

/-- Result of one step of the word-scanning loop body: continue in a new
state emitting characters onto the lexeme, or break out of the loop.
The end-of-input cases of the Rust `match` live in `wordLoop`. -/
inductive WordStepRes where
  | cont (state : WordState) (emit : List Char)
  | brk
  deriving DecidableEq

/-- One iteration of the `loop` body of scanner.rs `Scanner::word` for a
present character `c`, mirroring the `(self.current, state)` match arms in
their source order. -/
def wordStep (state : WordState) (c : Char) : WordStepRes :=
  match state with
  | .normal =>
    if c = '\\' then .cont .backSpace []
    else if c = '\'' then .cont .inSingleQuote []
    else if c = '"' then .cont .inDoubleQuote []
    else if is_whitespace c then .brk
    else .cont .normal [c]
  | .inSingleQuote =>
    if c = '\'' then .cont .normal []
    else .cont .inSingleQuote [c]
  | .inDoubleQuote =>
    if c = '\\' then .cont .quotedBackSpace []
    else if c = '"' then .cont .normal []
    else .cont .inDoubleQuote [c]
  | .quotedBackSpace =>
    if c = '"' ∨ c = '\\' then .cont .inDoubleQuote [c]
    else .cont .inDoubleQuote ['\\', c]
  | .backSpace => .cont .normal [c]

/-- The `loop` of scanner.rs `Scanner::word`: `acc` is the lexeme built so
far (`s` in the source), the result is the lexeme together with the
characters left unconsumed. The `None` (end-of-input) arms of the source
match are the `[]` case. -/
def wordLoop : WordState → List Char → List Char → Except String (List Char × List Char)
  | .normal, acc, [] => .ok (acc, [])
  | .inSingleQuote, _, [] => .error "unclosed single quote"
  | .inDoubleQuote, _, [] => .error "unclosed double quote"
  | .quotedBackSpace, _, [] => .error "unclosed double quote"
  | .backSpace, _, [] => .error "dangling back space"
  | state, acc, c :: rest =>
    match wordStep state c with
    | .brk => .ok (acc, c :: rest)
    | .cont state' emit => wordLoop state' (acc ++ emit) rest

/-- scanner.rs `Scanner::word`: scans a (possibly quoted) word starting in
the `Normal` state with an empty lexeme. -/
def word (input : List Char) : Except String (List Char × List Char) :=
  wordLoop .normal [] input

/-- Decimal value of a digit string, as computed by Rust `str::parse::<u32>`
on an all-digit string. -/
def digitsVal (s : List Char) : Nat :=
  s.foldl (fun a c => 10 * a + (c.toNat - '0'.toNat)) 0

/-- scanner.rs `parse_u32`: Rust `s.parse::<u32>()` succeeds exactly on a
nonempty digit string whose value fits in 32 unsigned bits; otherwise the
custom error message is produced. -/
def parse_u32 (s : List Char) : Except String Nat :=
  if s ≠ [] ∧ s.all is_digit = true ∧ digitsVal s < 4294967296 then
    .ok (digitsVal s)
  else
    .error ("couldn't parse `" ++ s.asString ++ "` as an unsigned 32 bit integer")

/-- scanner.rs `Scanner::integer`: collects the maximal digit run, parses
it as a u32 (an overflow is a scan error, raised before the lookahead for
`>`), then turns it into a file-descriptor-qualified redirect token when
immediately followed by `>` or `>>`, else a plain Integer token. -/
def integer (input : List Char) : Except String (Token × List Char) :=
  match parse_u32 (input.takeWhile is_digit) with
  | .error e => .error e
  | .ok i =>
    if (input.dropWhile is_digit).head? = some '>' then
      if (input.dropWhile is_digit).tail.head? = some '>' then
        .ok (⟨.redirectOutAppendWithFileDescriptor i, (input.takeWhile is_digit).asString ++ ">>"⟩,
          (input.dropWhile is_digit).tail.tail)
      else
        .ok (⟨.redirectOutWithFileDescriptor i, (input.takeWhile is_digit).asString ++ ">"⟩,
          (input.dropWhile is_digit).tail)
    else
      .ok (⟨.integer i, (input.takeWhile is_digit).asString⟩, input.dropWhile is_digit)

/-- scanner.rs `next_token`: skips whitespace, then dispatches on the
current character (with one character of lookahead for `>>`). Returns the
token and the characters left unconsumed; at end of input it returns the
EndOfCommand token forever. -/
def nextToken (input : List Char) : Except String (Token × List Char) :=
  match input.dropWhile is_whitespace with
  | [] => .ok (⟨.endOfCommand, ""⟩, [])
  | c :: rest =>
    if c = '|' then .ok (⟨.pipe, "|"⟩, rest)
    else if c = '>' then
      if rest.head? = some '>' then .ok (⟨.redirectOutAppend, ">>"⟩, rest.tail)
      else .ok (⟨.redirectOut, ">"⟩, rest)
    else if is_digit c then integer (c :: rest)
    else
      match word (c :: rest) with
      | .error e => .error e
      | .ok (s, rest') => .ok (⟨.word, s.asString⟩, rest')

/-! ### Abstract syntax (the `ast` module used by parser.rs and main.rs)

The `ast.rs` file present in src/ is from an older snapshot and does not
match parser.rs/main.rs (it lacks `Pipeline`, `BuiltInCommand`,
`ExternalCommand`, the `Redirection` enum and `BuiltIn::History`). The
types below are the ones parser.rs constructs and main.rs consumes,
modelled from the spec (§3 Data Model) and pinned down by their uses:
`Pipeline::Single/Double`, `Command::BuiltIn/External`,
`Redirection::StdOut/StdErr/None`, and
`BuiltIn::{Cd, Echo, Exit, Pwd, Type, History}`. -/

/-- Modelled from the spec: output redirection (§3), as constructed in
parser.rs `redirection`. -/
inductive Redirection where
  | stdOut (filename : String) (is_append : Bool)
  | stdErr (filename : String) (is_append : Bool)
  | none
  deriving DecidableEq

/-- Modelled from the spec: built-in kind (§3). `Exit` carries the u32
status produced by the parser; `History`'s optional limit is the usize
used by main.rs `eval_built_in`. -/
inductive BuiltIn where
  | Cd (path : String)
  | Echo (args : List String)
  | Exit (status : Nat)
  | Pwd
  | TypeCmd (command : String)
  | History (limit : Option Nat)
  deriving DecidableEq

/-- Modelled from the spec: a built-in invocation with its redirection. -/
structure BuiltInCommand where
  built_in : BuiltIn
  redirection : Redirection
  deriving DecidableEq

/-- Modelled from the spec: an external invocation (`args[0]` is the
program name) with its redirection. -/
structure ExternalCommand where
  args : List String
  redirection : Redirection
  deriving DecidableEq

/-- Modelled from the spec: a command is a built-in or external invocation. -/
inductive Command where
  | builtIn (c : BuiltInCommand)
  | external (c : ExternalCommand)
  deriving DecidableEq

/-- Modelled from the spec: a pipeline of one or two stages, as built by
parser.rs `pipeline` (`Pipeline::Single` / `Pipeline::Double`). -/
inductive Pipeline where
  | single (c : Command)
  | double (left right : Command)
  deriving DecidableEq

/-- Modelled from the spec: the stages of a pipeline in left-to-right
order (`pipeline.iter()` / `pipeline.len()` as used by main.rs `eval`). -/
def Pipeline.toList : Pipeline → List Command
  | .single c => [c]
  | .double l r => [l, r]

/-! ### Parser (parser.rs) -/

/-- parser.rs `ParserState`: the current token plus the scanner, the
latter represented by its unconsumed characters. -/
structure ParserState where
  current : Token
  input : List Char
  deriving DecidableEq

/-- parser.rs `ParserState::new`. -/
def ParserState.new (command : String) : Except String ParserState :=
  match nextToken command.data with
  | .error e => .error e
  | .ok (t, rest) => .ok ⟨t, rest⟩

/-- parser.rs `ParserState::advance`. -/
def advance (st : ParserState) : Except String ParserState :=
  match nextToken st.input with
  | .error e => .error e
  | .ok (t, rest) => .ok ⟨t, rest⟩

/-- parser.rs `ParserState::advance_keep_current`. -/
def advance_keep_current (st : ParserState) : Except String (Token × ParserState) :=
  match nextToken st.input with
  | .error e => .error e
  | .ok (t, rest) => .ok (st.current, ⟨t, rest⟩)

/-- parser.rs `ParserState::matches` (renamed: `matches` is reserved in
Lean). -/
def matches_tag (st : ParserState) (expected_tag : TokenTag) : Except String (Bool × ParserState) :=
  if st.current.tag = expected_tag then
    match advance st with
    | .error e => .error e
    | .ok st' => .ok (true, st')
  else .ok (false, st)

/-- parser.rs `ParserState::expect_lexeme`. -/
def expect_lexeme (st : ParserState) (tag : TokenTag) : Except String (String × ParserState) :=
  if st.current.tag = tag then
    match advance_keep_current st with
    | .error e => .error e
    | .ok (t, st') => .ok (t.lexeme, st')
  else
    .error ("expected `" ++ tagDebug tag ++ "` but found `" ++ st.current.lexeme ++ "`")

/-- parser.rs `redirection_filename`. -/
def redirection_filename (st : ParserState) : Except String (String × ParserState) :=
  match advance st with
  | .error e => .error e
  | .ok st' => expect_lexeme st' .word

/-- parser.rs `redirection`: the match arms grouped by token kind, with
the file-descriptor dispatch (1 → stdout, 2 → stderr, other → parse
error) written as a decision on the carried number. -/
def redirection (st : ParserState) : Except String (Redirection × ParserState) :=
  match st.current.tag with
  | .redirectOut =>
    match redirection_filename st with
    | .error e => .error e
    | .ok (f, st') => .ok (.stdOut f false, st')
  | .redirectOutAppend =>
    match redirection_filename st with
    | .error e => .error e
    | .ok (f, st') => .ok (.stdOut f true, st')
  | .redirectOutWithFileDescriptor n =>
    if n = 1 then
      match redirection_filename st with
      | .error e => .error e
      | .ok (f, st') => .ok (.stdOut f false, st')
    else if n = 2 then
      match redirection_filename st with
      | .error e => .error e
      | .ok (f, st') => .ok (.stdErr f false, st')
    else .error ("unrecognized file descriptor " ++ toString n)
  | .redirectOutAppendWithFileDescriptor n =>
    if n = 1 then
      match redirection_filename st with
      | .error e => .error e
      | .ok (f, st') => .ok (.stdOut f true, st')
    else if n = 2 then
      match redirection_filename st with
      | .error e => .error e
      | .ok (f, st') => .ok (.stdErr f true, st')
    else .error ("unrecognized file descriptor " ++ toString n)
  | _ => .ok (.none, st)

/-- parser.rs `collect_integer_word`, with explicit fuel for the `while`
loop. Each continuing iteration's token consumed at least one character, so
`input.length + 2` fuel (supplied by `collect_integer_word`) is never
exhausted; the fuel-out branch is unreachable for the wrapper below. -/
def collect_integer_word_fuel : Nat → ParserState → Except String (List String × ParserState)
  | 0, _ => .error "collect_integer_word: out of fuel"
  | fuel + 1, st =>
    match st.current.tag with
    | .word | .integer _ =>
      match nextToken st.input with
      | .error e => .error e
      | .ok (t, rest) =>
        match collect_integer_word_fuel fuel ⟨t, rest⟩ with
        | .error e => .error e
        | .ok (items, st') => .ok (st.current.lexeme :: items, st')
    | _ => .ok ([], st)

/-- parser.rs `collect_integer_word`: collects tokens into a list as long
as they are Word or Integer. -/
def collect_integer_word (st : ParserState) : Except String (List String × ParserState) :=
  collect_integer_word_fuel (st.input.length + 2) st

/-- parser.rs `cd`. The leading `assert!`s are modelled as a distinguished
error (a Rust panic is not a parse error). -/
def cd (st : ParserState) : Except String (BuiltIn × ParserState) :=
  if st.current.tag = .word ∧ st.current.lexeme = "cd" then do
    let st ← advance st
    let (path, st) ← expect_lexeme st .word
    return (.Cd path, st)
  else .error "panic: assertion failed"

/-- parser.rs `echo`. -/
def echo (st : ParserState) : Except String (BuiltIn × ParserState) :=
  if st.current.tag = .word ∧ st.current.lexeme = "echo" then do
    let st ← advance st
    let (args, st) ← collect_integer_word st
    return (.Echo args, st)
  else .error "panic: assertion failed"

/-- parser.rs `exit`: an optional following Integer sets the status,
defaulting to 0. -/
def exit (st : ParserState) : Except String (BuiltIn × ParserState) :=
  if st.current.tag = .word ∧ st.current.lexeme = "exit" then
    match advance st with
    | .error e => .error e
    | .ok st =>
      match st.current.tag with
      | .integer status =>
        match advance st with
        | .error e => .error e
        | .ok st' => .ok (.Exit status, st')
      | _ => .ok (.Exit 0, st)
  else .error "panic: assertion failed"

/-- parser.rs `pwd`. -/
def pwd (st : ParserState) : Except String (BuiltIn × ParserState) :=
  if st.current.tag = .word ∧ st.current.lexeme = "pwd" then
    match advance st with
    | .error e => .error e
    | .ok st' => .ok (.Pwd, st')
  else .error "panic: assertion failed"

/-- parser.rs `type_builtin`. -/
def type_builtin (st : ParserState) : Except String (BuiltIn × ParserState) :=
  if st.current.tag = .word ∧ st.current.lexeme = "type" then do
    let st ← advance st
    let (command, st) ← expect_lexeme st .word
    return (.TypeCmd command, st)
  else .error "panic: assertion failed"

/-- parser.rs `built_in`: the first Word's lexeme is matched against the
built-in names; any other word yields `none` (an external command). -/
def built_in (st : ParserState) : Except String (Option BuiltIn × ParserState) :=
  if st.current.tag = .word then
    if st.current.lexeme = "cd" then
      match cd st with
      | .error e => .error e
      | .ok (b, st') => .ok (some b, st')
    else if st.current.lexeme = "echo" then
      match echo st with
      | .error e => .error e
      | .ok (b, st') => .ok (some b, st')
    else if st.current.lexeme = "exit" then
      match exit st with
      | .error e => .error e
      | .ok (b, st') => .ok (some b, st')
    else if st.current.lexeme = "pwd" then
      match pwd st with
      | .error e => .error e
      | .ok (b, st') => .ok (some b, st')
    else if st.current.lexeme = "type" then
      match type_builtin st with
      | .error e => .error e
      | .ok (b, st') => .ok (some b, st')
    else .ok (none, st)
  else .error "panic: assertion failed"

/-- parser.rs `command`. -/
def command (st : ParserState) : Except String (Command × ParserState) :=
  if st.current.tag = .word then do
    let (b, st) ← built_in st
    match b with
    | some b => do
      let (r, st) ← redirection st
      return (.builtIn ⟨b, r⟩, st)
    | none => do
      let (args, st) ← collect_integer_word st
      let (r, st) ← redirection st
      return (.external ⟨args, r⟩, st)
  else .error "panic: assertion failed"

/-- parser.rs `pipeline`: one command, optionally `|` and exactly one
more. -/
def pipeline (st : ParserState) : Except String (Pipeline × ParserState) := do
  let (left, st) ← command st
  let (isPipe, st) ← matches_tag st .pipe
  if isPipe then do
    let (right, st) ← command st
    return (.double left right, st)
  else
    return (.single left, st)

/-- parser.rs `parse`: a blank line yields `none`; a leading Word starts a
pipeline; any other leading token is an error. The final parser state is
dropped — there is no end-of-command check. -/
def parse (command_text : String) : Except String (Option Pipeline) :=
  match ParserState.new command_text with
  | .error e => .error e
  | .ok st =>
    match st.current.tag with
    | .word =>
      match pipeline st with
      | .error e => .error e
      | .ok (p, _) => .ok (some p)
    | .endOfCommand => .ok none
    | tag => .error ("unexpected token `" ++ tagDebug tag ++ "`")

/-! ### Evaluator (main.rs)

The evaluator performs I/O: it opens redirection target files, spawns and
waits on child processes, and writes to sinks. The embedding records the
process-level effects (file opens, spawns, waits) as a trace and takes an
`Oracle` that decides the success of each system operation the way the OS
would. Output sinks are pure string buffers (`io::Cursor` in the source;
writes to them cannot fail). The `Stdio` plumbing between stages has no
observable effect in this model and is not materialised. -/

/-- Results that main.rs `eval` collaborators can have on the environment:
files opened for redirection (created, truncated or appended per the
append flag), children spawned, children waited on. -/
inductive Effect where
  | openFile (name : String) (is_append : Bool)
  | spawn (stage : Nat)
  | wait (stage : Nat)
  deriving DecidableEq

/-- External collaborators of `eval_built_in` (std::env and system.rs):
the home directory, the current directory, the result of
`change_directory`, and `search_for_executable_file` (returning the
resolved path's display). -/
structure Env where
  home : Option String
  currentDir : Except String String
  changeDir : String → Except String Unit
  findExecutable : String → Option String

/-- Result of main.rs `eval_built_in`: the text written to the two sinks,
an error propagated with `?`, or `std::process::exit` (which never
returns). -/
inductive BuiltInResult where
  | ok (out : String) (err : String)
  | failed (msg : String)
  | exitProcess (code : Nat)
  deriving DecidableEq

/-- main.rs `eval_built_in`, with the `Write` sinks modelled as the strings
accumulated on them. -/
def eval_built_in (env : Env) (history : List String) (b : BuiltIn) : BuiltInResult :=
  match b with
  | .Echo args =>
    .ok (String.intercalate " " args ++ "\n") ""
  | .Cd path =>
    if path = "~" then
      match env.home with
      | some home =>
        match env.changeDir home with
        | .ok _ => .ok "" ""
        | .error e => .failed e
      | none => .ok "" "cd: Home directory is unknown\n"
    else
      match env.changeDir path with
      | .ok _ => .ok "" ""
      | .error e => .ok "" ("cd: " ++ e ++ "\n")
  | .Exit code => .exitProcess code
  | .Pwd =>
    match env.currentDir with
    | .ok dir => .ok (dir ++ "\n") ""
    | .error e => .ok "" (e ++ "\n")
  | .TypeCmd command =>
    if command = "cd" ∨ command = "echo" ∨ command = "exit" ∨ command = "history" ∨
        command = "pwd" ∨ command = "type" then
      .ok (command ++ " is a shell builtin\n") ""
    else
      match env.findExecutable command with
      | some path => .ok (command ++ " is " ++ path ++ "\n") ""
      | none => .ok "" (command ++ ": not found\n")
  | .History limit =>
    let skip :=
      match limit with
      | some l => if l ≥ history.length then 0 else history.length - l
      | none => 0
    .ok ((history.enum.drop skip).foldl
      (fun acc p => acc ++ "\t" ++ toString (p.1 + 1) ++ "\t" ++ p.2 ++ "\n") "") ""

/-- The success of each fallible system operation main.rs `eval` performs,
indexed by pipeline stage, plus the environment for built-ins.
`spawnOk` stands for `spawn_command` (declared but not defined under src/:
it spawns the prepared `std::process::Command`); `childHasStdin` for
whether `child.stdin` is present; `stdinWriteOk` for `write_all`+`flush`
into a child's stdin; `stdoutWriteOk` for `io::stdout().write_all`;
`openOk` for `open_file`; `waitOk` for `child.wait()`. -/
structure Oracle where
  env : Env
  openOk : Nat → Bool
  spawnOk : Nat → Bool
  childHasStdin : Nat → Bool
  stdinWriteOk : Nat → Bool
  stdoutWriteOk : Nat → Bool
  waitOk : Nat → Bool

/-- Result of main.rs `eval_built_in_command` at stage `i`: the trace of
effects, and the stdout buffer returned, an error, or process exit. -/
inductive BICRes where
  | okOut (out : String)
  | failedB
  | exitedB (code : Nat)
  deriving DecidableEq

/-- main.rs `eval_built_in_command`: resolves the redirection to sinks
(opening the target file first — its failure aborts before the built-in
runs), runs the built-in, and returns the captured stdout buffer
(`Vec::new()` when stdout was redirected to a file). -/
def eval_built_in_command (o : Oracle) (i : Nat) (history : List String)
    (bc : BuiltInCommand) : List Effect × BICRes :=
  match bc.redirection with
  | .stdOut f a =>
    if o.openOk i then
      match eval_built_in o.env history bc.built_in with
      | .exitProcess c => ([.openFile f a], .exitedB c)
      | .failed _ => ([.openFile f a], .failedB)
      | .ok _ _ => ([.openFile f a], .okOut "")
    else ([], .failedB)
  | .stdErr f a =>
    if o.openOk i then
      match eval_built_in o.env history bc.built_in with
      | .exitProcess c => ([.openFile f a], .exitedB c)
      | .failed _ => ([.openFile f a], .failedB)
      | .ok out _ => ([.openFile f a], .okOut out)
    else ([], .failedB)
  | .none =>
    match eval_built_in o.env history bc.built_in with
    | .exitProcess c => ([], .exitedB c)
    | .failed _ => ([], .failedB)
    | .ok out _ => ([], .okOut out)

/-- Result of one iteration of main.rs `eval`'s `for` loop over the
pipeline stages: continue with the pushed child slot and the new
`built_in_out` buffer, or leave the loop early through `?` (failure) or
through `process::exit`. -/
inductive StageRes where
  | contS (child : Option Nat) (builtInOut : Option String) (tr : List Effect)
  | failS (tr : List Effect)
  | exitS (code : Nat) (tr : List Effect)
  deriving DecidableEq

/-- The body of main.rs `eval`'s `for` loop for stage `i` of `n`, with
`builtInOut` the captured output of a preceding built-in stage. For an
external stage: the redirection target is opened (`eval_external_command`),
the child is spawned (`spawn_command`), and a pending built-in buffer is
written into the child's stdin when present. Any `?` failure returns
without the child being recorded as waited. -/
def evalStage (o : Oracle) (history : List String) (n i : Nat)
    (builtInOut : Option String) : Command → StageRes
  | .builtIn bc =>
    match eval_built_in_command o i history bc with
    | (str, .failedB) => .failS str
    | (str, .exitedB code) => .exitS code str
    | (str, .okOut out) =>
      if i + 1 = n then
        if o.stdoutWriteOk i then .contS none none str
        else .failS str
      else .contS none (some out) str
  | .external ec =>
    match ec.redirection with
    | .stdOut f a =>
      if o.openOk i then externSpawn o i builtInOut [Effect.openFile f a]
      else .failS []
    | .stdErr f a =>
      if o.openOk i then externSpawn o i builtInOut [Effect.openFile f a]
      else .failS []
    | .none => externSpawn o i builtInOut []
where
  /-- `spawn_command` and the built-in-buffer handoff of main.rs
  lines 102–111. -/
  externSpawn (o : Oracle) (i : Nat) (builtInOut : Option String)
      (tr : List Effect) : StageRes :=
    if o.spawnOk i then
      match builtInOut with
      | some _ =>
        if o.childHasStdin i then
          if o.stdinWriteOk i then .contS (some i) none (tr ++ [.spawn i])
          else .failS (tr ++ [.spawn i])
        else .contS (some i) none (tr ++ [.spawn i])
      | none => .contS (some i) none (tr ++ [.spawn i])
    else .failS tr

/-- Result of the stage loop of main.rs `eval`: the `children` vector on
normal completion, or early exit by error or `process::exit`. -/
inductive LoopRes where
  | doneL (children : List (Option Nat)) (tr : List Effect)
  | failedL (tr : List Effect)
  | exitedL (code : Nat) (tr : List Effect)
  deriving DecidableEq

/-- The `for (i, command) in pipeline.iter().enumerate()` loop of main.rs
`eval`. -/
def evalGo (o : Oracle) (history : List String) (n : Nat) :
    List Command → Nat → Option String → List (Option Nat) → List Effect → LoopRes
  | [], _, _, children, tr => .doneL children tr
  | c :: rest, i, builtInOut, children, tr =>
    match evalStage o history n i builtInOut c with
    | .contS child bio' str => evalGo o history n rest (i + 1) bio' (children ++ [child]) (tr ++ str)
    | .failS str => .failedL (tr ++ str)
    | .exitS code str => .exitedL code (tr ++ str)

/-- The final `for child in children.iter_mut().flatten() { child.wait()?; }`
loop of main.rs `eval`: a failing `wait` call propagates with `?`, leaving
the remaining children unwaited. The Bool records success. -/
def wait_children (o : Oracle) : List (Option Nat) → List Effect → List Effect × Bool
  | [], tr => (tr, true)
  | none :: rest, tr => wait_children o rest tr
  | some j :: rest, tr =>
    if o.waitOk j then wait_children o rest (tr ++ [.wait j])
    else (tr ++ [.wait j], false)

/-- Overall outcome of main.rs `eval` for one input line. -/
inductive Outcome where
  | ok
  | parseError (msg : String)
  | ioError
  | exited (code : Nat)
  | assertFailed
  deriving DecidableEq

/-- The stage loop followed by the child-collection loop (main.rs `eval`
lines 61–120). -/
def runLoop (o : Oracle) (history : List String) (cmds : List Command) :
    List Effect × Outcome :=
  match evalGo o history cmds.length cmds 0 none [] [] with
  | .failedL tr => (tr, .ioError)
  | .exitedL code tr => (tr, .exited code)
  | .doneL children tr =>
    match wait_children o children tr with
    | (tr', true) => (tr', .ok)
    | (tr', false) => (tr', .ioError)

/-- main.rs `eval`: asserts a nonempty history, parses its last line (a
parse failure propagates before any effect), and runs the pipeline. A
blank line (`parse` returning `None`) runs an empty pipeline, a no-op. -/
def eval (o : Oracle) (history : List String) : List Effect × Outcome :=
  match history.getLast? with
  | none => ([], .assertFailed)
  | some command_text =>
    match parse command_text with
    | .error e => ([], .parseError e)
    | .ok none => runLoop o history []
    | .ok (some p) => runLoop o history p.toList

/-- A default environment for concrete witnesses (its fields are never
consulted by the pipelines evaluated there). -/
def env0 : Env where
  home := none
  currentDir := .error "io error"
  changeDir := fun _ => .error "io error"
  findExecutable := fun _ => none

/-- An oracle on which every system operation succeeds. -/
def oracleAllOk : Oracle where
  env := env0
  openOk := fun _ => true
  spawnOk := fun _ => true
  childHasStdin := fun _ => true
  stdinWriteOk := fun _ => true
  stdoutWriteOk := fun _ => true
  waitOk := fun _ => true

/-- An oracle on which spawning fails from stage 1 on (the second pipeline
stage), everything else succeeding. -/
def oracleSpawn1Fails : Oracle where
  env := env0
  openOk := fun _ => true
  spawnOk := fun i => i == 0
  childHasStdin := fun _ => true
  stdinWriteOk := fun _ => true
  stdoutWriteOk := fun _ => true
  waitOk := fun _ => true

/-- A character that the word scanner treats literally in the Normal state
and that never changes the scan state: not whitespace and not one of the
three special characters backslash, single quote, double quote. Used to
describe plain (unquoted, unescaped) argument text in the theorems. -/
def plainChar (c : Char) : Bool :=
  !is_whitespace c && c != '\\' && c != '\'' && c != '"'

/-!
## Theorems

Helper lemmas first, then one theorem per claim (with witnesses and
counterexamples where required).
-/

/-- Unfolding a `String.mk` back to its character list. -/
theorem mk_data (l : List Char) : (String.mk l).data = l := rfl

/-- A digit is not `|`, not `>`, and not whitespace. -/
theorem is_digit_not_special {c : Char} (h : is_digit c = true) :
    c ≠ '|' ∧ c ≠ '>' ∧ is_whitespace c = false := by
  refine ⟨?_, ?_, ?_⟩
  · rintro rfl; exact absurd h (by decide)
  · rintro rfl; exact absurd h (by decide)
  · unfold is_whitespace
    by_cases h1 : c = ' '
    · subst h1; exact absurd h (by decide)
    by_cases h2 : c = '\t'
    · subst h2; exact absurd h (by decide)
    by_cases h3 : c = '\r'
    · subst h3; exact absurd h (by decide)
    by_cases h4 : c = '\n'
    · subst h4; exact absurd h (by decide)
    simp [h1, h2, h3, h4]

/-- Splitting `takeWhile`/`dropWhile` over an append at the point where the
predicate first fails. -/
theorem takeWhile_all_append {p : Char → Bool} {l r : List Char}
    (hl : ∀ c ∈ l, p c = true) (hr : ∀ c, r.head? = some c → p c = false) :
    (l ++ r).takeWhile p = l ∧ (l ++ r).dropWhile p = r := by
  induction l with
  | nil =>
    simp only [List.nil_append]
    cases r with
    | nil => exact ⟨rfl, rfl⟩
    | cons c r' =>
      have hc := hr c rfl
      rw [List.takeWhile_cons, List.dropWhile_cons, hc]
      exact ⟨rfl, rfl⟩
  | cons a l ih =>
    have ha : p a = true := hl a (List.mem_cons_self a l)
    have ih' := ih (fun c hc => hl c (List.mem_cons_of_mem a hc))
    rw [List.cons_append, List.takeWhile_cons, List.dropWhile_cons, ha]
    simp only [if_true]
    exact ⟨by rw [ih'.1], by rw [ih'.2]⟩

/-- `dropWhile` is the identity when the head already fails the predicate. -/
theorem dropWhile_eq_self_of_head {p : Char → Bool} {s : List Char}
    (h : ∀ c, s.head? = some c → p c = false) : s.dropWhile p = s := by
  cases s with
  | nil => rfl
  | cons c r => rw [List.dropWhile_cons, h c rfl]; simp

/-- The one-step unfolding of `wordLoop` on a present character. -/
theorem wordLoop_cons (state : WordState) (acc : List Char) (c : Char) (rest : List Char) :
    wordLoop state acc (c :: rest) =
      match wordStep state c with
      | .brk => .ok (acc, c :: rest)
      | .cont state' emit => wordLoop state' (acc ++ emit) rest := by
  cases state <;> rfl

/-- In the Normal state a plain character is appended and scanning stays in
the Normal state. -/
theorem wordStep_plain {c : Char} (h : plainChar c = true) :
    wordStep .normal c = .cont .normal [c] := by
  unfold plainChar at h
  simp only [Bool.and_eq_true, Bool.not_eq_true', bne_iff_ne, ne_eq] at h
  obtain ⟨⟨⟨hws, h1⟩, h2⟩, h3⟩ := h
  unfold wordStep
  rw [if_neg h1, if_neg h2, if_neg h3, hws]
  rfl

/-- The word scanner passes over a run of plain characters, appending them
all to the lexeme. -/
theorem wordLoop_plain {s : List Char} (h : ∀ c ∈ s, plainChar c = true)
    (acc rest : List Char) :
    wordLoop .normal acc (s ++ rest) = wordLoop .normal (acc ++ s) rest := by
  induction s generalizing acc with
  | nil => simp
  | cons c s ih =>
    have hc := h c (List.mem_cons_self c s)
    rw [List.cons_append, wordLoop_cons, wordStep_plain hc]
    show wordLoop .normal (acc ++ [c]) (s ++ rest) = _
    rw [ih (fun d hd => h d (List.mem_cons_of_mem c hd)) (acc ++ [c])]
    simp

/-- In the Normal state, whitespace breaks the word scan without consuming. -/
theorem wordLoop_break_ws {c : Char} (h : is_whitespace c = true)
    (acc rest : List Char) :
    wordLoop .normal acc (c :: rest) = .ok (acc, c :: rest) := by
  rw [wordLoop_cons]
  have hc1 : c ≠ '\\' := by rintro rfl; exact absurd h (by decide)
  have hc2 : c ≠ '\'' := by rintro rfl; exact absurd h (by decide)
  have hc3 : c ≠ '"' := by rintro rfl; exact absurd h (by decide)
  unfold wordStep
  rw [if_neg hc1, if_neg hc2, if_neg hc3, h]
  rfl

/-- A word made only of plain characters scans to itself with nothing left. -/
theorem word_plain {w : List Char} (hw : ∀ c ∈ w, plainChar c = true) :
    word w = .ok (w, []) := by
  unfold word
  conv_lhs => rw [← List.append_nil w]
  rw [wordLoop_plain hw]
  simp [wordLoop]

/-- `parse_u32` succeeds on a nonempty digit string whose value fits. -/
theorem parse_u32_ok {ds : List Char} (hne : ds ≠ [])
    (hds : ∀ c ∈ ds, is_digit c = true) (hlt : digitsVal ds < 4294967296) :
    parse_u32 ds = .ok (digitsVal ds) := by
  unfold parse_u32
  rw [if_pos ⟨hne, List.all_eq_true.2 hds, hlt⟩]

/-- `parse_u32` fails with the overflow message when the value does not fit. -/
theorem parse_u32_overflow {ds : List Char} (hge : 4294967296 ≤ digitsVal ds) :
    parse_u32 ds =
      .error ("couldn't parse `" ++ ds.asString ++ "` as an unsigned 32 bit integer") := by
  unfold parse_u32
  rw [if_neg (fun h => absurd h.2.2 (not_lt.2 hge))]

/-- `Scanner::integer` on a maximal digit run followed by `rest`: the run is
collected and parsed, then the `>`/`>>` lookahead decides the token. -/
theorem integer_split {ds rest : List Char} (hne : ds ≠ [])
    (hds : ∀ c ∈ ds, is_digit c = true)
    (hrest : ∀ c, rest.head? = some c → is_digit c = false) :
    integer (ds ++ rest) =
      match parse_u32 ds with
      | .error e => .error e
      | .ok i =>
        if rest.head? = some '>' then
          if rest.tail.head? = some '>' then
            .ok (⟨.redirectOutAppendWithFileDescriptor i, ds.asString ++ ">>"⟩, rest.tail.tail)
          else .ok (⟨.redirectOutWithFileDescriptor i, ds.asString ++ ">"⟩, rest.tail)
        else .ok (⟨.integer i, ds.asString⟩, rest) := by
  obtain ⟨ht, hd⟩ := takeWhile_all_append hds hrest
  unfold integer
  rw [ht, hd]

/-- Leading whitespace is skipped by `next_token`. -/
theorem nextToken_ws_cons {c : Char} (h : is_whitespace c = true) (l : List Char) :
    nextToken (c :: l) = nextToken l := by
  unfold nextToken
  rw [List.dropWhile_cons, h]
  simp

/-- `next_token` on a pure digit run at end of input yields the Integer
token. -/
theorem nextToken_digits {ds : List Char} (hne : ds ≠ [])
    (hds : ∀ c ∈ ds, is_digit c = true) (hlt : digitsVal ds < 4294967296) :
    nextToken ds = .ok (⟨.integer (digitsVal ds), ds.asString⟩, []) := by
  cases ds with
  | nil => exact absurd rfl hne
  | cons c rest =>
    have hc := hds c (List.mem_cons_self c rest)
    obtain ⟨hp, hgt, hws⟩ := is_digit_not_special hc
    unfold nextToken
    rw [List.dropWhile_cons, hws]
    simp only [Bool.false_eq_true, if_false, if_neg hp, if_neg hgt, hc, if_true]
    have : (c :: rest) = (c :: rest) ++ [] := by simp
    rw [this, integer_split (by simp) (by simpa using hds) (by intro d hd; simp at hd),
      parse_u32_ok (by simp) (by simpa using hds) (by simpa using hlt)]
    simp

/-- `next_token` on a word of plain characters at end of input yields the
Word token with the whole text as lexeme. -/
theorem nextToken_word_plain {w : List Char} (hne : w ≠ [])
    (hw : ∀ c ∈ w, plainChar c = true)
    (hh : ∀ c, w.head? = some c → is_digit c = false ∧ c ≠ '>' ∧ c ≠ '|') :
    nextToken w = .ok (⟨.word, w.asString⟩, []) := by
  cases w with
  | nil => exact absurd rfl hne
  | cons c rest =>
    obtain ⟨hd, hgt, hp⟩ := hh c rfl
    have hc := hw c (List.mem_cons_self c rest)
    have hws : is_whitespace c = false := by
      unfold plainChar at hc
      simp only [Bool.and_eq_true, Bool.not_eq_true'] at hc
      exact hc.1.1.1
    unfold nextToken
    rw [List.dropWhile_cons, hws]
    simp only [Bool.false_eq_true, if_false, if_neg hp, if_neg hgt, hd]
    rw [word_plain hw]

/-- `next_token` on a run of plain word characters followed by whitespace:
the word token stops exactly at the whitespace. -/
theorem nextToken_plain_run {p : List Char} (hne : p ≠ [])
    (hp : ∀ c ∈ p, plainChar c = true)
    (hh : ∀ c, p.head? = some c → is_digit c = false ∧ c ≠ '>' ∧ c ≠ '|')
    {c : Char} (hc : is_whitespace c = true) (rest : List Char) :
    nextToken (p ++ c :: rest) = .ok (⟨.word, p.asString⟩, c :: rest) := by
  cases p with
  | nil => exact absurd rfl hne
  | cons a p' =>
    obtain ⟨hd, hgt, hpp⟩ := hh a rfl
    have ha := hp a (List.mem_cons_self a p')
    have hws : is_whitespace a = false := by
      unfold plainChar at ha
      simp only [Bool.and_eq_true, Bool.not_eq_true'] at ha
      exact ha.1.1.1
    unfold nextToken
    rw [List.cons_append, List.dropWhile_cons, hws]
    simp only [Bool.false_eq_true, if_false, if_neg hpp, if_neg hgt, hd]
    unfold word
    rw [show (a :: (p' ++ c :: rest)) = (a :: p') ++ c :: rest from rfl,
      wordLoop_plain hp, List.nil_append, wordLoop_break_ws hc]

/-- C3: the claim says the built-in name set is {cd, echo, exit, pwd, type,
history} and that a command whose first word is "history" parses as the
History built-in with an optional Integer display limit. The code's
`built_in` matches only cd, echo, exit, pwd and type, so "history" (with or
without a limit) parses as an External command with argv[0] = "history" —
even though main.rs `eval_built_in` has a `BuiltIn::History` arm and its
`type` built-in reports "history is a shell builtin" (also visible in
`eval_built_in` here). This theorem evaluates the parser at the failing
inputs and exhibits the internal contradiction with `type`. -/
theorem c3_history_dispatch :
    parse "history" = .ok (some (.single (.external ⟨["history"], .none⟩))) ∧
    parse "history 5" = .ok (some (.single (.external ⟨["history", "5"], .none⟩))) ∧
    eval_built_in env0 [] (.TypeCmd "history") = .ok "history is a shell builtin\n" "" := by
  exact ⟨rfl, rfl, rfl⟩

/-- C4: in the QuotedBackSpace state (a backslash seen inside double
quotes), an escaped `"` or `\` is appended alone (backslash dropped), any
other character is appended together with the backslash, and in either
case scanning returns to the InDoubleQuote state. -/
theorem c4_quoted_backslash (c : Char) (acc rest : List Char) :
    wordStep .quotedBackSpace c =
      .cont .inDoubleQuote (if c = '"' ∨ c = '\\' then [c] else ['\\', c]) ∧
    wordLoop .quotedBackSpace acc (c :: rest) =
      wordLoop .inDoubleQuote (acc ++ (if c = '"' ∨ c = '\\' then [c] else ['\\', c])) rest := by
  have h1 : wordStep .quotedBackSpace c =
      .cont .inDoubleQuote (if c = '"' ∨ c = '\\' then [c] else ['\\', c]) := by
    unfold wordStep
    by_cases h : c = '"' ∨ c = '\\'
    · rw [if_pos h, if_pos h]
    · rw [if_neg h, if_neg h]
  refine ⟨h1, ?_⟩
  rw [wordLoop_cons, h1]

/-- C4 witness: the theorem applied at the concrete escaped character `x`
(kept with its backslash) and at `"` (backslash dropped). -/
theorem c4_witness :
    wordStep .quotedBackSpace 'x' = .cont .inDoubleQuote ['\\', 'x'] ∧
    wordLoop .quotedBackSpace [] ['x'] = wordLoop .inDoubleQuote ['\\', 'x'] [] ∧
    wordStep .quotedBackSpace '"' = .cont .inDoubleQuote ['"'] := by
  have h1 := c4_quoted_backslash 'x' [] []
  have h2 := c4_quoted_backslash '"' [] []
  refine ⟨?_, ?_, ?_⟩
  · simpa using h1.1
  · simpa using h1.2
  · simpa using h2.1

/-- C5 counterexample: end-of-input directly after an unquoted backslash is
the scan error "dangling back space" in the code, not the claimed
"dangling backslash"; shown on the input `a\`. -/
theorem c5_counterexample :
    nextToken ['a', '\\'] = .error "dangling back space" ∧
    "dangling back space" ≠ "dangling backslash" := by
  exact ⟨rfl, by decide⟩

/-- C5 amended: end-of-input in a non-Normal word-scan state fails with the
state's specific message — "unclosed single quote" inside single quotes,
"unclosed double quote" inside double quotes or in the quoted-backslash
state, and "dangling back space" right after an unquoted backslash — and
no Word token is produced (the result is an error). -/
theorem c5_amended (acc : List Char) :
    wordLoop .inSingleQuote acc [] = .error "unclosed single quote" ∧
    wordLoop .inDoubleQuote acc [] = .error "unclosed double quote" ∧
    wordLoop .quotedBackSpace acc [] = .error "unclosed double quote" ∧
    wordLoop .backSpace acc [] = .error "dangling back space" :=
  ⟨rfl, rfl, rfl, rfl⟩

/-- C5 witness: the amended theorem applied at the empty accumulated
lexeme. -/
theorem c5_witness :
    wordLoop .inSingleQuote [] [] = .error "unclosed single quote" ∧
    wordLoop .inDoubleQuote [] [] = .error "unclosed double quote" ∧
    wordLoop .quotedBackSpace [] [] = .error "unclosed double quote" ∧
    wordLoop .backSpace [] [] = .error "dangling back space" :=
  c5_amended []

/-- C6: at an input position starting with a digit the scanner dispatches
to `integer` (first conjunct), which consumes the maximal digit run `ds`
and: yields a RedirectOutAppendWithFileDescriptor token with the run's
value if `>>` follows immediately, a RedirectOutWithFileDescriptor token
if a single `>` follows, and a plain Integer token otherwise; if the run's
value does not fit in 32 unsigned bits, scanning fails with the overflow
scan error instead of producing any token. -/
theorem c6_integer_scan (ds rest : List Char) (hne : ds ≠ [])
    (hds : ∀ c ∈ ds, is_digit c = true)
    (hrest : ∀ c, rest.head? = some c → is_digit c = false) :
    (∀ (c : Char) (l : List Char), is_digit c = true →
      nextToken (c :: l) = integer (c :: l)) ∧
    (digitsVal ds < 4294967296 →
      (rest.head? = some '>' → rest.tail.head? = some '>' →
        integer (ds ++ rest) =
          .ok (⟨.redirectOutAppendWithFileDescriptor (digitsVal ds), ds.asString ++ ">>"⟩,
            rest.tail.tail)) ∧
      (rest.head? = some '>' → rest.tail.head? ≠ some '>' →
        integer (ds ++ rest) =
          .ok (⟨.redirectOutWithFileDescriptor (digitsVal ds), ds.asString ++ ">"⟩,
            rest.tail)) ∧
      (rest.head? ≠ some '>' →
        integer (ds ++ rest) = .ok (⟨.integer (digitsVal ds), ds.asString⟩, rest))) ∧
    (4294967296 ≤ digitsVal ds →
      integer (ds ++ rest) =
        .error ("couldn't parse `" ++ ds.asString ++ "` as an unsigned 32 bit integer")) := by
  refine ⟨?_, ?_, ?_⟩
  · intro c l hc
    obtain ⟨hp, hgt, hws⟩ := is_digit_not_special hc
    unfold nextToken
    rw [List.dropWhile_cons, hws]
    simp only [Bool.false_eq_true, if_false, if_neg hp, if_neg hgt, hc, if_true]
  · intro hlt
    have hi := integer_split hne hds hrest
    rw [parse_u32_ok hne hds hlt] at hi
    refine ⟨?_, ?_, ?_⟩
    · intro h1 h2
      rw [hi]
      simp only [h1, h2, if_true]
    · intro h1 h2
      rw [hi]
      simp only [h1, if_true, if_neg h2]
    · intro h1
      rw [hi]
      simp only [if_neg h1]
  · intro hge
    have hi := integer_split hne hds hrest
    rw [parse_u32_overflow hge] at hi
    exact hi

/-- C6 witness: the theorem applied to the digit run `1` followed by `>f`
(yielding the descriptor-qualified redirect token carrying 1). -/
theorem c6_witness :
    integer ['1', '>', 'f'] =
      .ok (⟨.redirectOutWithFileDescriptor 1, "1>"⟩, ['f']) := by
  have h := ((c6_integer_scan ['1'] ['>', 'f'] (by decide) (by decide)
    (by intro c hc; simp at hc; subst hc; decide)).2.1 (by decide)).2.1 rfl (by decide)
  simpa using h

/-- C9: unquoted, unescaped argument text made of a digit run followed by a
plain non-digit, non-`>` (and non-`|`) remainder scans as two tokens — an
Integer token for the digit run, then a separate Word token for the
remainder — and (third conjunct) whenever `next_token` produces a Word
token, the character at which scanning of that token began was not a
digit. -/
theorem c9_digit_word_split (ds w : List Char) (hne : ds ≠ [])
    (hds : ∀ c ∈ ds, is_digit c = true) (hlt : digitsVal ds < 4294967296)
    (hwne : w ≠ []) (hw : ∀ c ∈ w, plainChar c = true)
    (hh : ∀ c, w.head? = some c → is_digit c = false ∧ c ≠ '>' ∧ c ≠ '|') :
    nextToken (ds ++ w) = .ok (⟨.integer (digitsVal ds), ds.asString⟩, w) ∧
    nextToken w = .ok (⟨.word, w.asString⟩, []) ∧
    (∀ (input : List Char) (t : Token) (r : List Char),
      nextToken input = .ok (t, r) → t.tag = .word →
      ∀ c, (input.dropWhile is_whitespace).head? = some c → is_digit c = false) := by
  refine ⟨?_, nextToken_word_plain hwne hw hh, ?_⟩
  · cases ds with
    | nil => exact absurd rfl hne
    | cons a ds' =>
      have ha := hds a (List.mem_cons_self a ds')
      obtain ⟨hp, hgt, hws⟩ := is_digit_not_special ha
      unfold nextToken
      rw [List.cons_append, List.dropWhile_cons, hws]
      simp only [Bool.false_eq_true, if_false, if_neg hp, if_neg hgt, ha, if_true]
      rw [← List.cons_append,
        integer_split hne hds (fun c hc => (hh c hc).1),
        parse_u32_ok hne hds hlt]
      have hne' : w.head? ≠ some '>' := by
        cases w with
        | nil => simp
        | cons b w' =>
          have := (hh b rfl).2.1
          simpa using this
      simp only [if_neg hne']
  · intro input t r h htag c hc
    unfold nextToken at h
    cases hdw : input.dropWhile is_whitespace with
    | nil =>
      rw [hdw] at h
      simp only [Except.ok.injEq, Prod.mk.injEq] at h
      rw [← h.1] at htag
      exact absurd htag (by decide)
    | cons a l =>
      rw [hdw] at hc
      simp only [List.head?_cons, Option.some.injEq] at hc
      subst hc
      rw [hdw] at h
      dsimp only at h
      by_cases h1 : a = '|'
      · rw [if_pos h1] at h
        simp only [Except.ok.injEq, Prod.mk.injEq] at h
        rw [← h.1] at htag
        exact absurd htag (by decide)
      rw [if_neg h1] at h
      by_cases h2 : a = '>'
      · rw [if_pos h2] at h
        by_cases h3 : l.head? = some '>'
        · rw [if_pos h3] at h
          simp only [Except.ok.injEq, Prod.mk.injEq] at h
          rw [← h.1] at htag
          exact absurd htag (by decide)
        · rw [if_neg h3] at h
          simp only [Except.ok.injEq, Prod.mk.injEq] at h
          rw [← h.1] at htag
          exact absurd htag (by decide)
      rw [if_neg h2] at h
      by_cases h4 : is_digit a = true
      · rw [if_pos h4] at h
        unfold integer at h
        cases hp : parse_u32 ((a :: l).takeWhile is_digit) with
        | error e => rw [hp] at h; exact absurd h (by simp)
        | ok i =>
          rw [hp] at h
          dsimp only at h
          by_cases h5 : ((a :: l).dropWhile is_digit).head? = some '>'
          · rw [if_pos h5] at h
            by_cases h6 : ((a :: l).dropWhile is_digit).tail.head? = some '>'
            · rw [if_pos h6] at h
              simp only [Except.ok.injEq, Prod.mk.injEq] at h
              rw [← h.1] at htag
              simp at htag
            · rw [if_neg h6] at h
              simp only [Except.ok.injEq, Prod.mk.injEq] at h
              rw [← h.1] at htag
              simp at htag
          · rw [if_neg h5] at h
            simp only [Except.ok.injEq, Prod.mk.injEq] at h
            rw [← h.1] at htag
            simp at htag
      · simpa using h4

/-- C9 witness: the theorem applied to `2abc`, scanning as the Integer
token `2` followed by the Word token `abc`. -/
theorem c9_witness :
    nextToken ['2', 'a', 'b', 'c'] = .ok (⟨.integer 2, "2"⟩, ['a', 'b', 'c']) ∧
    nextToken ['a', 'b', 'c'] = .ok (⟨.word, "abc"⟩, []) := by
  have h := c9_digit_word_split ['2'] ['a', 'b', 'c'] (by decide)
    (by intro c hc; simp at hc; subst hc; decide) (by decide) (by decide)
    (by intro c hc; fin_cases hc <;> decide)
    (by intro c hc; simp at hc; subst hc; decide)
  exact ⟨by simpa using h.1, by simpa using h.2.1⟩

/-- The word scanner passes over a single-quoted segment literally,
returning to the Normal state at the closing quote. -/
theorem wordLoop_single_quoted {s : List Char} (h : '\'' ∉ s) (acc rest : List Char) :
    wordLoop .inSingleQuote acc (s ++ '\'' :: rest) = wordLoop .normal (acc ++ s) rest := by
  induction s generalizing acc with
  | nil =>
    rw [List.nil_append, wordLoop_cons]
    simp [wordStep]
  | cons c s ih =>
    rw [List.mem_cons, not_or] at h
    rw [List.cons_append, wordLoop_cons]
    have hstep : wordStep .inSingleQuote c = .cont .inSingleQuote [c] := by
      show (if c = '\'' then WordStepRes.cont .normal [] else .cont .inSingleQuote [c]) = _
      rw [if_neg (fun e => h.1 e.symm)]
    rw [hstep]
    show wordLoop .inSingleQuote (acc ++ [c]) (s ++ '\'' :: rest) = _
    rw [ih h.2]
    simp

/-- The word scanner passes over a double-quoted segment free of `"` and
`\` literally, returning to the Normal state at the closing quote. -/
theorem wordLoop_double_quoted {s : List Char} (h1 : '"' ∉ s) (h2 : '\\' ∉ s)
    (acc rest : List Char) :
    wordLoop .inDoubleQuote acc (s ++ '"' :: rest) = wordLoop .normal (acc ++ s) rest := by
  induction s generalizing acc with
  | nil =>
    rw [List.nil_append, wordLoop_cons]
    simp [wordStep]
  | cons c s ih =>
    rw [List.mem_cons, not_or] at h1
    rw [List.mem_cons, not_or] at h2
    rw [List.cons_append, wordLoop_cons]
    have hstep : wordStep .inDoubleQuote c = .cont .inDoubleQuote [c] := by
      show (if c = '\\' then WordStepRes.cont .quotedBackSpace []
        else if c = '"' then .cont .normal [] else .cont .inDoubleQuote [c]) = _
      rw [if_neg (fun e => h2.1 e.symm), if_neg (fun e => h1.1 e.symm)]
    rw [hstep]
    show wordLoop .inDoubleQuote (acc ++ [c]) (s ++ '"' :: rest) = _
    rw [ih h1.2 h2.2]
    simp

/-- Entering a single-quoted region consumes the quote and emits nothing. -/
theorem wordLoop_enter_single (acc rest : List Char) :
    wordLoop .normal acc ('\'' :: rest) = wordLoop .inSingleQuote acc rest := by
  rw [wordLoop_cons, show wordStep .normal '\'' = .cont .inSingleQuote [] from rfl]
  simp

/-- Entering a double-quoted region consumes the quote and emits nothing. -/
theorem wordLoop_enter_double (acc rest : List Char) :
    wordLoop .normal acc ('"' :: rest) = wordLoop .inDoubleQuote acc rest := by
  rw [wordLoop_cons, show wordStep .normal '"' = .cont .inDoubleQuote [] from rfl]
  simp

/-- C10: a word token ends only at unquoted, unescaped whitespace (second
conjunct: the loop body breaks exactly in the Normal state at whitespace)
or at end of input in the Normal state (third conjunct: at end of input
the scan succeeds exactly in the Normal state). Entering or leaving a
quoted region never ends the word, so adjacent single-quoted, plain and
double-quoted segments with no intervening whitespace scan as a single
Word token whose lexeme is the concatenation of the segments\' contents
(first conjunct). -/
theorem c10_word_concatenation (s1 s2 s3 : List Char)
    (h1 : '\'' ∉ s1) (h2 : ∀ c ∈ s2, plainChar c = true)
    (h3 : '"' ∉ s3) (h4 : '\\' ∉ s3) :
    nextToken (('\'' :: s1) ++ ('\'' :: s2) ++ ('"' :: s3) ++ ['"']) =
      .ok (⟨.word, (s1 ++ s2 ++ s3).asString⟩, []) ∧
    (∀ (st : WordState) (c : Char),
      wordStep st c = .brk ↔ st = .normal ∧ is_whitespace c = true) ∧
    (∀ (st : WordState) (acc : List Char),
      (∃ res, wordLoop st acc [] = Except.ok res) ↔ st = .normal) := by
  refine ⟨?_, ?_, ?_⟩
  · have hword : word ('\'' :: (s1 ++ '\'' :: (s2 ++ '"' :: (s3 ++ ['"'])))) =
        .ok (s1 ++ (s2 ++ s3), []) := by
      unfold word
      rw [wordLoop_enter_single, wordLoop_single_quoted h1, List.nil_append,
        wordLoop_plain h2, wordLoop_enter_double, wordLoop_double_quoted h3 h4]
      simp [wordLoop, List.append_assoc]
    unfold nextToken
    simp only [List.append_assoc, List.cons_append]
    rw [List.dropWhile_cons, if_neg (show ¬is_whitespace '\'' = true by decide)]
    dsimp only
    rw [if_neg (show ¬('\'' : Char) = '|' by decide),
      if_neg (show ¬('\'' : Char) = '>' by decide),
      if_neg (show ¬is_digit '\'' = true by decide), hword]
  · intro st c
    constructor
    · intro h
      cases st with
      | normal =>
        refine ⟨rfl, ?_⟩
        rw [show wordStep .normal c =
          (if c = '\\' then WordStepRes.cont .backSpace []
           else if c = '\'' then .cont .inSingleQuote []
           else if c = '"' then .cont .inDoubleQuote []
           else if is_whitespace c then .brk
           else .cont .normal [c]) from rfl] at h
        by_cases e1 : c = '\\'
        · rw [if_pos e1] at h; exact absurd h (by simp)
        rw [if_neg e1] at h
        by_cases e2 : c = '\''
        · rw [if_pos e2] at h; exact absurd h (by simp)
        rw [if_neg e2] at h
        by_cases e3 : c = '"'
        · rw [if_pos e3] at h; exact absurd h (by simp)
        rw [if_neg e3] at h
        by_cases e4 : is_whitespace c = true
        · exact e4
        · rw [if_neg e4] at h; exact absurd h (by simp)
      | inSingleQuote =>
        rw [show wordStep .inSingleQuote c =
          (if c = '\'' then WordStepRes.cont .normal []
           else .cont .inSingleQuote [c]) from rfl] at h
        by_cases e : c = '\''
        · rw [if_pos e] at h; exact absurd h (by simp)
        · rw [if_neg e] at h; exact absurd h (by simp)
      | inDoubleQuote =>
        rw [show wordStep .inDoubleQuote c =
          (if c = '\\' then WordStepRes.cont .quotedBackSpace []
           else if c = '"' then .cont .normal []
           else .cont .inDoubleQuote [c]) from rfl] at h
        by_cases e1 : c = '\\'
        · rw [if_pos e1] at h; exact absurd h (by simp)
        rw [if_neg e1] at h
        by_cases e2 : c = '"'
        · rw [if_pos e2] at h; exact absurd h (by simp)
        · rw [if_neg e2] at h; exact absurd h (by simp)
      | backSpace =>
        rw [show wordStep .backSpace c = WordStepRes.cont .normal [c] from rfl] at h
        exact absurd h (by simp)
      | quotedBackSpace =>
        rw [show wordStep .quotedBackSpace c =
          (if c = '"' ∨ c = '\\' then WordStepRes.cont .inDoubleQuote [c]
           else .cont .inDoubleQuote ['\\', c]) from rfl] at h
        by_cases e : c = '"' ∨ c = '\\'
        · rw [if_pos e] at h; exact absurd h (by simp)
        · rw [if_neg e] at h; exact absurd h (by simp)
    · rintro ⟨rfl, hws⟩
      have e1 : c ≠ '\\' := by rintro rfl; exact absurd hws (by decide)
      have e2 : c ≠ '\'' := by rintro rfl; exact absurd hws (by decide)
      have e3 : c ≠ '"' := by rintro rfl; exact absurd hws (by decide)
      rw [show wordStep .normal c =
        (if c = '\\' then WordStepRes.cont .backSpace []
         else if c = '\'' then .cont .inSingleQuote []
         else if c = '"' then .cont .inDoubleQuote []
         else if is_whitespace c then .brk
         else .cont .normal [c]) from rfl]
      rw [if_neg e1, if_neg e2, if_neg e3, hws]
      rfl
  · intro st acc
    cases st <;> simp [wordLoop]

/-- C10 witness: the theorem applied to the claim's example `'a'b"c"`,
which scans as the single Word token `abc`. -/
theorem c10_witness :
    nextToken ['\'', 'a', '\'', 'b', '"', 'c', '"'] = .ok (⟨.word, "abc"⟩, []) := by
  have h := (c10_word_concatenation ['a'] ['b'] ['c'] (by decide) (by decide)
    (by decide) (by decide)).1
  simpa using h

/-- Reduction of the Except monad's bind on a success value. -/
theorem except_bind_ok {ε α β : Type} (a : α) (f : α → Except ε β) :
    (Except.ok a : Except ε α) >>= f = f a := rfl

/-- C1 counterexample: the claim says that after a full command is parsed,
remaining non-end-of-input tokens make `parse` fail with "expected end of
command but got `X`". On `pwd x` the full command `pwd` parses, the Word
token `x` remains current in the final parser state (second conjunct), yet
`parse` succeeds, returning the Pipeline and silently dropping the
trailing token — there is no end-of-command check. -/
theorem c1_counterexample :
    parse "pwd x" = .ok (some (.single (.builtIn ⟨.Pwd, .none⟩))) ∧
    pipeline ⟨⟨.word, "pwd"⟩, [' ', 'x']⟩ =
      .ok (.single (.builtIn ⟨.Pwd, .none⟩), ⟨⟨.word, "x"⟩, []⟩) := by
  exact ⟨rfl, rfl⟩

/-- C1 amended: `parse` performs no end-of-input check. After a complete
command, a trailing Word token is left unconsumed in the parser state
(first conjunct: `pipeline` returns with the trailing Word, not the
end-of-input token, current) and `parse` nevertheless returns the
successful Pipeline, ignoring it (second conjunct); no "expected end of
command" error exists on this path. -/
theorem c1_amended (w : List Char) (hne : w ≠ [])
    (hw : ∀ c ∈ w, plainChar c = true)
    (hh : ∀ c, w.head? = some c → is_digit c = false ∧ c ≠ '>' ∧ c ≠ '|') :
    pipeline ⟨⟨.word, "pwd"⟩, ' ' :: w⟩ =
      .ok (.single (.builtIn ⟨.Pwd, .none⟩), ⟨⟨.word, w.asString⟩, []⟩) ∧
    parse ⟨'p' :: 'w' :: 'd' :: ' ' :: w⟩ =
      .ok (some (.single (.builtIn ⟨.Pwd, .none⟩))) := by
  have hadv : advance ⟨⟨.word, "pwd"⟩, ' ' :: w⟩ = .ok ⟨⟨.word, w.asString⟩, []⟩ := by
    unfold advance
    dsimp only
    rw [nextToken_ws_cons (by decide), nextToken_word_plain hne hw hh]
  have hpwd : pwd ⟨⟨.word, "pwd"⟩, ' ' :: w⟩ = .ok (.Pwd, ⟨⟨.word, w.asString⟩, []⟩) := by
    unfold pwd
    dsimp only
    rw [if_pos ⟨rfl, rfl⟩, hadv]
  have hbi : built_in ⟨⟨.word, "pwd"⟩, ' ' :: w⟩ =
      .ok (some .Pwd, ⟨⟨.word, w.asString⟩, []⟩) := by
    unfold built_in
    dsimp only
    rw [if_pos rfl, if_neg (by decide), if_neg (by decide), if_neg (by decide),
      if_pos rfl, hpwd]
  have hred : redirection ⟨⟨.word, w.asString⟩, []⟩ =
      .ok (.none, ⟨⟨.word, w.asString⟩, []⟩) := rfl
  have hcmd : command ⟨⟨.word, "pwd"⟩, ' ' :: w⟩ =
      .ok (.builtIn ⟨.Pwd, .none⟩, ⟨⟨.word, w.asString⟩, []⟩) := by
    unfold command
    dsimp only
    rw [if_pos rfl, hbi, except_bind_ok]
    dsimp only
    rw [hred, except_bind_ok]
    rfl
  have hmt : matches_tag ⟨⟨.word, w.asString⟩, []⟩ .pipe =
      .ok (false, ⟨⟨.word, w.asString⟩, []⟩) := rfl
  have hpipe : pipeline ⟨⟨.word, "pwd"⟩, ' ' :: w⟩ =
      .ok (.single (.builtIn ⟨.Pwd, .none⟩), ⟨⟨.word, w.asString⟩, []⟩) := by
    unfold pipeline
    rw [hcmd, except_bind_ok]
    dsimp only
    rw [hmt, except_bind_ok]
    rfl
  refine ⟨hpipe, ?_⟩
  unfold parse ParserState.new
  rw [show (String.mk ('p' :: 'w' :: 'd' :: ' ' :: w)).data =
    ['p', 'w', 'd'] ++ ' ' :: w from rfl]
  rw [nextToken_plain_run (by decide) (by decide) (by decide) (by decide) w]
  rw [show (['p', 'w', 'd'].asString : String) = "pwd" from rfl]
  dsimp only
  rw [hpipe]

/-- C1 witness: the amended theorem applied to the trailing word `x`. -/
theorem c1_witness :
    pipeline ⟨⟨.word, "pwd"⟩, [' ', 'x']⟩ =
      .ok (.single (.builtIn ⟨.Pwd, .none⟩), ⟨⟨.word, "x"⟩, []⟩) ∧
    parse "pwd x" = .ok (some (.single (.builtIn ⟨.Pwd, .none⟩))) := by
  have h := c1_amended ['x'] (by decide) (by decide) (by decide)
  exact ⟨by simpa using h.1, by simpa using h.2⟩

/-- C7: a descriptor-qualified redirect token whose descriptor `n` is
neither 1 nor 2 makes the parser's `redirection` step fail with the
"unrecognized file descriptor n" message (first two conjuncts, for the
plain and append forms); any parse error propagates out of `eval` before
a single effect is performed, so no redirection target file is opened,
created or truncated (third conjunct); and the spec's own example
`echo hi 3> /tmp/f` is exactly such a parse error (fourth conjunct). -/
theorem c7_unrecognized_fd :
    (∀ (st : ParserState) (n : Nat), n ≠ 1 → n ≠ 2 →
      (st.current.tag = .redirectOutWithFileDescriptor n →
        redirection st = .error ("unrecognized file descriptor " ++ toString n)) ∧
      (st.current.tag = .redirectOutAppendWithFileDescriptor n →
        redirection st = .error ("unrecognized file descriptor " ++ toString n))) ∧
    (∀ (o : Oracle) (hist : List String) (s e : String),
      parse s = .error e → eval o (hist ++ [s]) = ([], .parseError e)) ∧
    parse "echo hi 3> /tmp/f" = .error "unrecognized file descriptor 3" := by
  refine ⟨?_, ?_, rfl⟩
  · intro st n h1 h2
    constructor
    · intro htag
      unfold redirection
      rw [htag]
      dsimp only
      rw [if_neg h1, if_neg h2]
    · intro htag
      unfold redirection
      rw [htag]
      dsimp only
      rw [if_neg h1, if_neg h2]
  · intro o hist s e hpe
    unfold eval
    rw [List.getLast?_concat]
    dsimp only
    rw [hpe]

/-- C7 witness: the theorem applied at descriptor 3 — on a parser state
whose current token is `3>`, and on the spec's example line, whose parse
error reaches `eval` untouched with an empty effect trace. -/
theorem c7_witness :
    redirection ⟨⟨.redirectOutWithFileDescriptor 3, "3>"⟩, []⟩ =
      .error "unrecognized file descriptor 3" ∧
    eval oracleAllOk ["echo hi 3> /tmp/f"] =
      ([], .parseError "unrecognized file descriptor 3") := by
  constructor
  · exact (c7_unrecognized_fd.1 ⟨⟨.redirectOutWithFileDescriptor 3, "3>"⟩, []⟩ 3
      (by decide) (by decide)).1 rfl
  · exact c7_unrecognized_fd.2.1 oracleAllOk [] "echo hi 3> /tmp/f"
      "unrecognized file descriptor 3" c7_unrecognized_fd.2.2

/-- C8: `exit` followed by an Integer token parses to the Exit built-in
carrying that integer (first conjunct, for any digit run whose value fits
u32); bare `exit` parses to Exit 0 — the integer is optional, never
required (second conjunct); evaluating Exit is the unconditional process
exit with the carried status (third conjunct); and a full evaluation of
`exit 5` terminates with status 5 before any other effect (fourth
conjunct). -/
theorem c8_exit (ds : List Char) (hne : ds ≠ [])
    (hds : ∀ c ∈ ds, is_digit c = true) (hlt : digitsVal ds < 4294967296) :
    parse ⟨'e' :: 'x' :: 'i' :: 't' :: ' ' :: ds⟩ =
      .ok (some (.single (.builtIn ⟨.Exit (digitsVal ds), .none⟩))) ∧
    parse "exit" = .ok (some (.single (.builtIn ⟨.Exit 0, .none⟩))) ∧
    (∀ (env : Env) (hist : List String) (n : Nat),
      eval_built_in env hist (.Exit n) = .exitProcess n) ∧
    (∀ o : Oracle, eval o ["exit 5"] = ([], .exited 5)) := by
  have hadv : advance ⟨⟨.word, "exit"⟩, ' ' :: ds⟩ =
      .ok ⟨⟨.integer (digitsVal ds), ds.asString⟩, []⟩ := by
    unfold advance
    dsimp only
    rw [nextToken_ws_cons (by decide), nextToken_digits hne hds hlt]
  have hexit : exit ⟨⟨.word, "exit"⟩, ' ' :: ds⟩ =
      .ok (.Exit (digitsVal ds), ⟨⟨.endOfCommand, ""⟩, []⟩) := by
    unfold exit
    dsimp only
    rw [if_pos ⟨rfl, rfl⟩, hadv]
    dsimp only
    rw [show advance ⟨⟨.integer (digitsVal ds), ds.asString⟩, []⟩ =
      .ok ⟨⟨.endOfCommand, ""⟩, []⟩ from rfl]
  have hbi : built_in ⟨⟨.word, "exit"⟩, ' ' :: ds⟩ =
      .ok (some (.Exit (digitsVal ds)), ⟨⟨.endOfCommand, ""⟩, []⟩) := by
    unfold built_in
    dsimp only
    rw [if_pos rfl, if_neg (by decide), if_neg (by decide), if_pos rfl, hexit]
  have hcmd : command ⟨⟨.word, "exit"⟩, ' ' :: ds⟩ =
      .ok (.builtIn ⟨.Exit (digitsVal ds), .none⟩, ⟨⟨.endOfCommand, ""⟩, []⟩) := by
    unfold command
    dsimp only
    rw [if_pos rfl, hbi, except_bind_ok]
    dsimp only
    rw [show redirection ⟨⟨.endOfCommand, ""⟩, []⟩ =
      .ok (.none, ⟨⟨.endOfCommand, ""⟩, []⟩) from rfl, except_bind_ok]
    rfl
  have hpipe : pipeline ⟨⟨.word, "exit"⟩, ' ' :: ds⟩ =
      .ok (.single (.builtIn ⟨.Exit (digitsVal ds), .none⟩), ⟨⟨.endOfCommand, ""⟩, []⟩) := by
    unfold pipeline
    rw [hcmd, except_bind_ok]
    dsimp only
    rw [show matches_tag ⟨⟨.endOfCommand, ""⟩, []⟩ .pipe =
      .ok (false, ⟨⟨.endOfCommand, ""⟩, []⟩) from rfl, except_bind_ok]
    rfl
  refine ⟨?_, rfl, fun env hist n => rfl, fun o => rfl⟩
  unfold parse ParserState.new
  rw [show (String.mk ('e' :: 'x' :: 'i' :: 't' :: ' ' :: ds)).data =
    ['e', 'x', 'i', 't'] ++ ' ' :: ds from rfl]
  rw [nextToken_plain_run (by decide) (by decide) (by decide) (by decide) ds]
  rw [show (['e', 'x', 'i', 't'].asString : String) = "exit" from rfl]
  dsimp only
  rw [hpipe]

/-- C8 witness: the theorem applied to `exit 42`. -/
theorem c8_witness :
    parse "exit 42" = .ok (some (.single (.builtIn ⟨.Exit 42, .none⟩))) ∧
    eval_built_in env0 [] (.Exit 42) = .exitProcess 42 ∧
    eval oracleAllOk ["exit 5"] = ([], .exited 5) := by
  have h := c8_exit ['4', '2'] (by decide)
    (by intro c hc; fin_cases hc <;> decide) (by decide)
  exact ⟨by simpa using h.1, h.2.2.1 env0 [] 42, h.2.2.2 oracleAllOk⟩

/-- A built-in stage performs no spawn effect. -/
theorem bic_no_spawn (o : Oracle) (i : Nat) (hist : List String) (bc : BuiltInCommand)
    (j : Nat) : Effect.spawn j ∉ (eval_built_in_command o i hist bc).1 := by
  obtain ⟨b, r⟩ := bc
  unfold eval_built_in_command
  cases r with
  | stdOut f a =>
    dsimp only
    by_cases h : o.openOk i = true
    · rw [if_pos h]
      cases eval_built_in o.env hist b <;> simp
    · rw [if_neg h]
      simp
  | stdErr f a =>
    dsimp only
    by_cases h : o.openOk i = true
    · rw [if_pos h]
      cases eval_built_in o.env hist b <;> simp
    · rw [if_neg h]
      simp
  | none =>
    dsimp only
    cases eval_built_in o.env hist b <;> simp

/-- A continuing `externSpawn` records the spawned child and exactly the
spawn effect after the open effects. -/
theorem externSpawn_cont (o : Oracle) (i : Nat) (bio : Option String)
    (tr0 : List Effect) (child : Option Nat) (bio' : Option String) (str : List Effect)
    (h : evalStage.externSpawn o i bio tr0 = .contS child bio' str) :
    child = some i ∧ str = tr0 ++ [Effect.spawn i] := by
  unfold evalStage.externSpawn at h
  by_cases hs : o.spawnOk i = true
  · rw [if_pos hs] at h
    cases bio with
    | none =>
      dsimp only at h
      injection h with h1 h2 h3
      exact ⟨h1.symm, h3.symm⟩
    | some buf =>
      dsimp only at h
      by_cases hc : o.childHasStdin i = true
      · rw [if_pos hc] at h
        by_cases hw : o.stdinWriteOk i = true
        · rw [if_pos hw] at h
          injection h with h1 h2 h3
          exact ⟨h1.symm, h3.symm⟩
        · rw [if_neg hw] at h
          exact absurd h (by simp)
      · rw [if_neg hc] at h
        injection h with h1 h2 h3
        exact ⟨h1.symm, h3.symm⟩
  · rw [if_neg hs] at h
    exact absurd h (by simp)

/-- Every spawn effect of a continuing stage is the stage's own recorded
child. -/
theorem evalStage_cont_spawn (o : Oracle) (hist : List String) (n i : Nat)
    (bio : Option String) (c : Command) (child : Option Nat) (bio' : Option String)
    (str : List Effect) (h : evalStage o hist n i bio c = .contS child bio' str)
    (j : Nat) (hj : Effect.spawn j ∈ str) : child = some j := by
  cases c with
  | builtIn bc =>
    have hsp := bic_no_spawn o i hist bc j
    unfold evalStage at h
    dsimp only at h
    cases hb : eval_built_in_command o i hist bc with
    | mk str' res =>
      rw [hb] at h
      rw [hb] at hsp
      cases res with
      | failedB => exact absurd h (by simp)
      | exitedB code => exact absurd h (by simp)
      | okOut out =>
        dsimp only at h
        by_cases hn : i + 1 = n
        · rw [if_pos hn] at h
          by_cases hw : o.stdoutWriteOk i = true
          · rw [if_pos hw] at h
            injection h with h1 h2 h3
            subst h3
            exact absurd hj hsp
          · rw [if_neg hw] at h
            exact absurd h (by simp)
        · rw [if_neg hn] at h
          injection h with h1 h2 h3
          subst h3
          exact absurd hj hsp
  | external ec =>
    obtain ⟨args, r⟩ := ec
    unfold evalStage at h
    cases r with
    | stdOut f a =>
      dsimp only at h
      by_cases ho : o.openOk i = true
      · rw [if_pos ho] at h
        obtain ⟨h1, h2⟩ := externSpawn_cont o i bio _ child bio' str h
        subst h2
        rcases List.mem_append.1 hj with h3 | h3
        · exact absurd h3 (by simp)
        · simp only [List.mem_singleton, Effect.spawn.injEq] at h3
          rw [h1, h3]
      · rw [if_neg ho] at h
        exact absurd h (by simp)
    | stdErr f a =>
      dsimp only at h
      by_cases ho : o.openOk i = true
      · rw [if_pos ho] at h
        obtain ⟨h1, h2⟩ := externSpawn_cont o i bio _ child bio' str h
        subst h2
        rcases List.mem_append.1 hj with h3 | h3
        · exact absurd h3 (by simp)
        · simp only [List.mem_singleton, Effect.spawn.injEq] at h3
          rw [h1, h3]
      · rw [if_neg ho] at h
        exact absurd h (by simp)
    | none =>
      dsimp only at h
      obtain ⟨h1, h2⟩ := externSpawn_cont o i bio _ child bio' str h
      subst h2
      rcases List.mem_append.1 hj with h3 | h3
      · exact absurd h3 (by simp)
      · simp only [List.mem_singleton, Effect.spawn.injEq] at h3
        rw [h1, h3]

/-- Invariant of the stage loop: when it completes normally, every spawn
effect it added is recorded in the `children` vector, which only grows. -/
theorem evalGo_done_spawn (o : Oracle) (hist : List String) (n : Nat) :
    ∀ (cs : List Command) (i : Nat) (bio : Option String) (ch : List (Option Nat))
      (tr : List Effect) (ch' : List (Option Nat)) (tr' : List Effect),
      evalGo o hist n cs i bio ch tr = .doneL ch' tr' →
      (∀ j, some j ∈ ch → some j ∈ ch') ∧
      (∀ j, Effect.spawn j ∈ tr' → Effect.spawn j ∈ tr ∨ some j ∈ ch') := by
  intro cs
  induction cs with
  | nil =>
    intro i bio ch tr ch' tr' h
    unfold evalGo at h
    injection h with h1 h2
    subst h1
    subst h2
    exact ⟨fun j hj => hj, fun j hj => Or.inl hj⟩
  | cons c cs ih =>
    intro i bio ch tr ch' tr' h
    unfold evalGo at h
    cases hs : evalStage o hist n i bio c with
    | contS child bio2 str =>
      rw [hs] at h
      dsimp only at h
      obtain ⟨hmono, hspawn⟩ := ih (i + 1) bio2 (ch ++ [child]) (tr ++ str) ch' tr' h
      refine ⟨fun j hj => hmono j (List.mem_append_left _ hj), ?_⟩
      intro j hj
      rcases hspawn j hj with h1 | h1
      · rcases List.mem_append.1 h1 with h2 | h2
        · exact Or.inl h2
        · have hc := evalStage_cont_spawn o hist n i bio c child bio2 str hs j h2
          subst hc
          exact Or.inr (hmono j (List.mem_append_right _ (List.mem_singleton.2 rfl)))
      · exact Or.inr h1
    | failS str =>
      rw [hs] at h
      exact absurd h (by simp)
    | exitS code str =>
      rw [hs] at h
      exact absurd h (by simp)

/-- When the child-collection loop completes successfully, it has preserved
the incoming trace and recorded a wait for every pushed child. -/
theorem wait_children_waits (o : Oracle) :
    ∀ (ch : List (Option Nat)) (tr tr' : List Effect),
      wait_children o ch tr = (tr', true) →
      (∀ e ∈ tr, e ∈ tr') ∧ (∀ j, some j ∈ ch → Effect.wait j ∈ tr') := by
  intro ch
  induction ch with
  | nil =>
    intro tr tr' h
    unfold wait_children at h
    injection h with h1 h2
    subst h1
    exact ⟨fun e he => he, by simp⟩
  | cons oc ch ih =>
    intro tr tr' h
    unfold wait_children at h
    cases oc with
    | none =>
      dsimp only at h
      obtain ⟨h1, h2⟩ := ih tr tr' h
      refine ⟨h1, fun j hj => ?_⟩
      rcases List.mem_cons.1 hj with h3 | h3
      · exact absurd h3 (by simp)
      · exact h2 j h3
    | some k =>
      dsimp only at h
      by_cases hw : o.waitOk k = true
      · rw [if_pos hw] at h
        obtain ⟨h1, h2⟩ := ih (tr ++ [.wait k]) tr' h
        refine ⟨fun e he => h1 e (List.mem_append_left _ he), fun j hj => ?_⟩
        rcases List.mem_cons.1 hj with h3 | h3
        · injection h3 with h3
          subst h3
          exact h1 _ (List.mem_append_right _ (List.mem_singleton.2 rfl))
        · exact h2 j h3
      · rw [if_neg hw] at h
        exact absurd h (by simp)

/-- The child-collection loop only adds wait effects to the trace. -/
theorem wait_children_only_waits (o : Oracle) :
    ∀ (ch : List (Option Nat)) (tr tr' : List Effect) (b : Bool),
      wait_children o ch tr = (tr', b) →
      ∀ e ∈ tr', e ∈ tr ∨ ∃ j, e = Effect.wait j := by
  intro ch
  induction ch with
  | nil =>
    intro tr tr' b h
    unfold wait_children at h
    injection h with h1 h2
    subst h1
    exact fun e he => Or.inl he
  | cons oc ch ih =>
    intro tr tr' b h
    unfold wait_children at h
    cases oc with
    | none => exact ih tr tr' b h
    | some k =>
      dsimp only at h
      by_cases hw : o.waitOk k = true
      · rw [if_pos hw] at h
        intro e he
        rcases ih (tr ++ [.wait k]) tr' b h e he with h1 | h1
        · rcases List.mem_append.1 h1 with h2 | h2
          · exact Or.inl h2
          · exact Or.inr ⟨k, List.mem_singleton.1 h2⟩
        · exact Or.inr h1
      · rw [if_neg hw] at h
        injection h with h1 h2
        subst h1
        intro e he
        rcases List.mem_append.1 he with h2 | h2
        · exact Or.inl h2
        · exact Or.inr ⟨k, List.mem_singleton.1 h2⟩

/-- C2 counterexample: the claim says every spawned child is waited on
before `eval` returns, on every error path included. With spawning failing
from stage 1 on, `a | b` spawns stage 0 and then returns the error with
`?` — skipping the wait loop entirely: the trace holds the spawn of child
0 and no wait at all. -/
theorem c2_counterexample :
    eval oracleSpawn1Fails ["a | b"] = ([Effect.spawn 0], .ioError) ∧
    Effect.spawn 0 ∈ [Effect.spawn 0] ∧
    Effect.wait 0 ∉ [Effect.spawn 0] :=
  ⟨rfl, by decide, by decide⟩

/-- C2 amended: children are collected only on the loop's success path —
when `eval` returns with outcome ok, every spawned stage has been waited
on before the return (a spawn effect in the final trace always has its
wait effect there too); on an error after an earlier stage was spawned,
`eval` returns without waiting on the already-spawned children. -/
theorem c2_amended (o : Oracle) (history : List String) (tr : List Effect)
    (h : eval o history = (tr, .ok)) :
    ∀ j, Effect.spawn j ∈ tr → Effect.wait j ∈ tr := by
  unfold eval at h
  cases hl : history.getLast? with
  | none =>
    rw [hl] at h
    exact absurd h (by simp)
  | some ct =>
    rw [hl] at h
    dsimp only at h
    cases hp : parse ct with
    | error e =>
      rw [hp] at h
      exact absurd h (by simp)
    | ok op =>
      rw [hp] at h
      have hrun : ∃ cmds, runLoop o history cmds = (tr, .ok) := by
        cases op with
        | none => exact ⟨[], h⟩
        | some p => exact ⟨p.toList, h⟩
      obtain ⟨cmds, hrun⟩ := hrun
      unfold runLoop at hrun
      cases hg : evalGo o history cmds.length cmds 0 none [] [] with
      | doneL ch trd =>
        rw [hg] at hrun
        dsimp only at hrun
        cases hw : wait_children o ch trd with
        | mk tr2 b =>
          rw [hw] at hrun
          cases b with
          | false => exact absurd hrun (by simp)
          | true =>
            have htr : tr2 = tr := by
              simpa using congrArg Prod.fst hrun
            subst htr
            intro j hj
            rcases wait_children_only_waits o ch trd tr2 true hw _ hj with h1 | ⟨k, hk⟩
            · obtain ⟨-, hsp⟩ :=
                evalGo_done_spawn o history cmds.length cmds 0 none [] [] ch trd hg
              rcases hsp j h1 with h2 | h2
              · exact absurd h2 (by simp)
              · exact (wait_children_waits o ch trd tr2 hw).2 j h2
            · exact absurd hk (by simp)
      | failedL trf =>
        rw [hg] at hrun
        exact absurd hrun (by simp)
      | exitedL code trf =>
        rw [hg] at hrun
        exact absurd hrun (by simp)

/-- C2 witness: on `a | b` with every operation succeeding, `eval` returns
ok and the amended theorem yields the wait for the spawned stage 0. -/
theorem c2_witness :
    Effect.wait 0 ∈ [Effect.spawn 0, Effect.spawn 1, Effect.wait 0, Effect.wait 1] ∧
    eval oracleAllOk ["a | b"] =
      ([Effect.spawn 0, Effect.spawn 1, Effect.wait 0, Effect.wait 1], .ok) :=
  ⟨c2_amended oracleAllOk ["a | b"]
    [Effect.spawn 0, Effect.spawn 1, Effect.wait 0, Effect.wait 1] rfl 0 (by decide), rfl⟩

end Shell
